import Mathlib

/-!
Verification of the OMT-android PC receiver (`scripts/pc_receiver.py`).

The script connects to a socket, then runs a framing loop: it buffers
bytes from `recv`, decodes a fixed 36-byte big-endian header
(`struct.unpack(">IIIIIIQI", buf[:need])`), checks the 4-byte magic
`0x4F4D5430`, prints a one-time stream-dimensions diagnostic, reads the
declared payload, writes the payload to stdout and counts frames.

We embed the loop shallowly: bytes are `Nat`s (values 0..255 in practice),
`recv` results are a list of chunks (an empty-chunk answer models the
socket signalling end-of-stream, and once the chunk list is exhausted
every further `recv` returns the empty chunk, as a closed socket does),
and the loop is a fuel-indexed interpreter: `none` means the given fuel
was exhausted, so a run that is `none` for every fuel never terminates.
Observable behaviour is collected in `RunResult`: the emitted
`(header, payload)` pairs, the final frame count, the process exit code
(0 for the normal return, 3 for `sys.exit(3)` on a bad magic) and the
ordered list of stderr messages.
-/

namespace OMTRecv

/-- Protocol magic constant `0x4F4D5430` ("OMT0" big-endian), `MAGIC` in the script. -/
def MAGIC : Nat := 0x4F4D5430

/-- Big-endian value of a byte list, as `struct.unpack` reads each fixed-width field. -/
def beDecode (bs : List Nat) : Nat := bs.foldl (fun a b => 256 * a + b) 0

/-- Big-endian encoding of `v` into `n` bytes, most significant byte first. -/
def beEncode : Nat → Nat → List Nat
  | 0, _ => []
  | n + 1, v => beEncode n (v / 256) ++ [v % 256]

/-- The eight header fields of the wire format, named as in the script's
`magic, width, height, stride_y, stride_u, stride_v, ts, payload_len = struct.unpack(...)`. -/
structure FrameHeader where
  magic : Nat
  width : Nat
  height : Nat
  stride_y : Nat
  stride_u : Nat
  stride_v : Nat
  ts : Nat
  payload_len : Nat
deriving DecidableEq, Repr

/-- `struct.unpack(">IIIIIIQI", bs)`: eight big-endian fields, four `uint32`s at
offsets 0/4/8/12/16/20, a `uint64` at offset 24, and a final `uint32` at offset 32. -/
def unpackHeader (bs : List Nat) : FrameHeader :=
  { magic := beDecode (bs.take 4)
    width := beDecode ((bs.drop 4).take 4)
    height := beDecode ((bs.drop 8).take 4)
    stride_y := beDecode ((bs.drop 12).take 4)
    stride_u := beDecode ((bs.drop 16).take 4)
    stride_v := beDecode ((bs.drop 20).take 4)
    ts := beDecode ((bs.drop 24).take 8)
    payload_len := beDecode ((bs.drop 32).take 4) }

/-- The wire encoding of a header: each field big-endian at its fixed offset. -/
def packHeader (h : FrameHeader) : List Nat :=
  beEncode 4 h.magic ++ beEncode 4 h.width ++ beEncode 4 h.height ++
  beEncode 4 h.stride_y ++ beEncode 4 h.stride_u ++ beEncode 4 h.stride_v ++
  beEncode 8 h.ts ++ beEncode 4 h.payload_len

/-- The script's `need = 4 + 4 + 4 + 4 + 4 + 4 + 8 + 4`: the fixed prefix
read before each payload. -/
def headerNeed : Nat := 4 + 4 + 4 + 4 + 4 + 4 + 8 + 4

/-- All header fields fit their declared wire widths (`uint32` / `uint64`). -/
def HeaderInRange (h : FrameHeader) : Prop :=
  h.magic < 2 ^ 32 ∧ h.width < 2 ^ 32 ∧ h.height < 2 ^ 32 ∧ h.stride_y < 2 ^ 32 ∧
  h.stride_u < 2 ^ 32 ∧ h.stride_v < 2 ^ 32 ∧ h.ts < 2 ^ 64 ∧ h.payload_len < 2 ^ 32

instance (h : FrameHeader) : Decidable (HeaderInRange h) := by
  unfold HeaderInRange; infer_instance

/-- A well-formed wire frame: correct magic, declared length matching the
payload, and all fields within their wire widths. -/
def ValidFrame (f : FrameHeader × List Nat) : Prop :=
  f.1.magic = MAGIC ∧ f.1.payload_len = f.2.length ∧ HeaderInRange f.1

instance (f : FrameHeader × List Nat) : Decidable (ValidFrame f) := by
  unfold ValidFrame; infer_instance

/-- Wire bytes of one frame: the 36-byte header followed by the payload. -/
def encodeFrame (f : FrameHeader × List Nat) : List Nat := packHeader f.1 ++ f.2

/-- Wire bytes of a sequence of frames, concatenated. -/
def encodeFrames (fs : List (FrameHeader × List Nat)) : List Nat :=
  (fs.map encodeFrame).flatten

/-- Stderr messages the script can print, in the order they appear. -/
inductive Msg where
  | streamDims (width height stride_y stride_u stride_v : Nat)
  | badMagic (magic : Nat)
  | frameTick (n : Nat)
  | doneCount (n : Nat)
deriving DecidableEq, Repr

/-- Selects the final `Done. Frames received: n` report. -/
def Msg.isDone : Msg → Bool
  | .doneCount _ => true
  | _ => false

/-- Selects the fatal `Bad magic` report. -/
def Msg.isFatal : Msg → Bool
  | .badMagic _ => true
  | _ => false

/-- The loop state of `main`: the accumulation buffer `buf`, the current
requirement `need`, the chunks `recv` has yet to deliver, and the
observables accumulated so far (emitted frames, `frame_count`, stderr log). -/
structure DecState where
  buf : List Nat
  need : Nat
  chunks : List (List Nat)
  frames : List (FrameHeader × List Nat)
  frame_count : Nat
  log : List Msg
deriving DecidableEq, Repr

/-- Observable outcome of a terminating run of `main`'s loop. -/
structure RunResult where
  frames : List (FrameHeader × List Nat)
  frame_count : Nat
  exitCode : Nat
  log : List Msg
deriving DecidableEq, Repr

/-- The `if frame_count == 0: print(f"Stream: ...")` diagnostic, keyed to the
just-decoded header. -/
def diagLog (s : DecState) (hd : FrameHeader) : List Msg :=
  if s.frame_count = 0 then
    s.log ++ [Msg.streamDims hd.width hd.height hd.stride_y hd.stride_u hd.stride_v]
  else s.log

/-- The `if frame_count % 100 == 0: print(f"Frames: ...")` progress line. -/
def tickLog (lg : List Msg) (fc : Nat) : List Msg :=
  if fc % 100 = 0 then lg ++ [Msg.frameTick fc] else lg

/-- The script's inner payload wait,
`while len(buf) < payload_len: buf += s.recv(65536); if not buf: break`.
Returns the buffer and remaining chunks when the loop exits; `none` means the
fuel ran out (with the chunk list exhausted and a non-empty short buffer this
loop re-calls `recv` forever, so every fuel yields `none`). -/
def fillPayload : Nat → List Nat → List (List Nat) → Nat → Option (List Nat × List (List Nat))
  | 0, _, _, _ => none
  | fuel + 1, buf, chunks, payload_len =>
    if buf.length < payload_len then
      match chunks with
      | [] => if buf = [] then some (buf, []) else fillPayload fuel buf [] payload_len
      | c :: rest =>
        if buf ++ c = [] then some (buf ++ c, rest)
        else fillPayload fuel (buf ++ c) rest payload_len
    else some (buf, chunks)

/-- One-to-one embedding of the script's `while True:` loop.  At the loop top,
if the buffer is short of `need` it appends one `recv` result and either ends
("Done" report, exit 0) when the whole buffer is empty or retries; otherwise it
unpacks the 36-byte header from `buf[:need]`, exits with code 3 on a bad magic,
logs the one-time dimension diagnostic, runs the inner payload wait, ends with
the "Done" report if the payload never completed, and otherwise emits the frame
and recurses with `need` reset.  (The script's transient `need = payload_len`
write is dead: every path re-assigns `need` or leaves the loop before reading
it, so the model keeps `need` at its loop-top value.) -/
def runAux : Nat → DecState → Option RunResult
  | 0, _ => none
  | fuel + 1, s =>
    if s.buf.length < s.need then
      match s.chunks with
      | [] =>
        if s.buf = [] then
          some ⟨s.frames, s.frame_count, 0, s.log ++ [Msg.doneCount s.frame_count]⟩
        else runAux fuel s
      | c :: rest =>
        if s.buf ++ c = [] then
          some ⟨s.frames, s.frame_count, 0, s.log ++ [Msg.doneCount s.frame_count]⟩
        else runAux fuel { s with buf := s.buf ++ c, chunks := rest }
    else
      let hd := unpackHeader (s.buf.take s.need)
      if hd.magic ≠ MAGIC then
        some ⟨s.frames, s.frame_count, 3, s.log ++ [Msg.badMagic hd.magic]⟩
      else
        let lg1 := diagLog s hd
        match fillPayload fuel (s.buf.drop s.need) s.chunks hd.payload_len with
        | none => none
        | some (buf2, chunks2) =>
          if buf2.length < hd.payload_len then
            some ⟨s.frames, s.frame_count, 0, lg1 ++ [Msg.doneCount s.frame_count]⟩
          else
            runAux fuel
              { buf := buf2.drop hd.payload_len
                need := headerNeed
                chunks := chunks2
                frames := s.frames ++ [(hd, buf2.take hd.payload_len)]
                frame_count := s.frame_count + 1
                log := tickLog lg1 (s.frame_count + 1) }

/-- Run the decode loop from the script's initial state (`buf = b""`,
`need = 36`, `frame_count = 0`) on a given sequence of `recv` results. -/
def decodeStream (fuel : Nat) (chunks : List (List Nat)) : Option RunResult :=
  runAux fuel ⟨[], headerNeed, chunks, [], 0, []⟩

/-- A terminating run: some fuel suffices to reach a result. -/
def Emits (s : DecState) (r : RunResult) : Prop := ∃ fuel, runAux fuel s = some r

/-- Sample frame used by concrete witnesses: 2x2, 3-byte payload. -/
def sampleFrame : FrameHeader × List Nat := (⟨MAGIC, 2, 2, 2, 1, 1, 5, 3⟩, [7, 8, 9])

/-- Wire bytes of the sample frame. -/
def sampleBytes : List Nat := encodeFrames [sampleFrame]

/-- The sample bytes split at an arbitrary boundary inside the header. -/
def sampleChunks : List (List Nat) := [sampleBytes.take 10, sampleBytes.drop 10]

/-- Sample frame A: 640x480, 2-byte payload. -/
def sampleFrameA : FrameHeader × List Nat := (⟨MAGIC, 640, 480, 640, 320, 320, 100, 2⟩, [1, 2])

/-- Sample frame B: different dimensions and strides than A, 1-byte payload. -/
def sampleFrameB : FrameHeader × List Nat := (⟨MAGIC, 320, 240, 384, 192, 192, 200, 1⟩, [3])

/-- A valid header declaring a 2-byte payload, for truncation scenarios. -/
def truncHeader : FrameHeader := ⟨MAGIC, 4, 4, 4, 2, 2, 0, 2⟩

/-! ### Byte codec lemmas -/

theorem beEncode_length (n v : Nat) : (beEncode n v).length = n := by
  induction n generalizing v with
  | zero => rfl
  | succ n ih => simp [beEncode, ih]

theorem beDecode_snoc (a : List Nat) (x : Nat) :
    beDecode (a ++ [x]) = 256 * beDecode a + x := by
  simp [beDecode, List.foldl_append]

theorem pow256_four : (256 : Nat) ^ 4 = 2 ^ 32 := by norm_num

theorem pow256_eight : (256 : Nat) ^ 8 = 2 ^ 64 := by norm_num

theorem beDecode_beEncode (n v : Nat) (h : v < 256 ^ n) :
    beDecode (beEncode n v) = v := by
  induction n generalizing v with
  | zero =>
    simp only [beEncode, beDecode, List.foldl_nil]
    omega
  | succ n ih =>
    have hv : v / 256 < 256 ^ n := by
      apply Nat.div_lt_of_lt_mul
      calc v < 256 ^ (n + 1) := h
        _ = 256 * 256 ^ n := by ring
    rw [beEncode, beDecode_snoc, ih (v / 256) hv]
    omega

theorem packHeader_length (h : FrameHeader) : (packHeader h).length = 36 := by
  simp [packHeader, beEncode_length]

theorem headerNeed_eq : headerNeed = 36 := rfl

/-- Extracting a known-length left factor of an append equation. -/
theorem take_of_append_eq {a x c y : List Nat} (h : a ++ x = c ++ y)
    (hn : c.length ≤ a.length) : a.take c.length = c := by
  have h2 : (a ++ x).take c.length = (c ++ y).take c.length := by rw [h]
  rwa [List.take_append_of_le_length hn,
    List.take_append_of_le_length (le_refl _), List.take_length] at h2

/-- Dropping a known-length left factor of an append equation. -/
theorem drop_of_append_eq {a x c y : List Nat} (h : a ++ x = c ++ y)
    (hn : c.length ≤ a.length) : a.drop c.length ++ x = y := by
  have h2 : (a ++ x).drop c.length = (c ++ y).drop c.length := by rw [h]
  rwa [List.drop_append_of_le_length hn, List.drop_left] at h2

theorem unpackHeader_append (a b c d e f g i : List Nat)
    (la : a.length = 4) (lb : b.length = 4) (lc : c.length = 4) (ld : d.length = 4)
    (le : e.length = 4) (lf : f.length = 4) (lg : g.length = 8) (li : i.length = 4) :
    unpackHeader (a ++ (b ++ (c ++ (d ++ (e ++ (f ++ (g ++ i))))))) =
      ⟨beDecode a, beDecode b, beDecode c, beDecode d,
        beDecode e, beDecode f, beDecode g, beDecode i⟩ := by
  set big := a ++ (b ++ (c ++ (d ++ (e ++ (f ++ (g ++ i)))))) with hbig
  have d1 : big.drop 4 = b ++ (c ++ (d ++ (e ++ (f ++ (g ++ i))))) := List.drop_left' la
  have d2 : big.drop 8 = c ++ (d ++ (e ++ (f ++ (g ++ i)))) := by
    have step : big.drop 8 = (big.drop 4).drop 4 := by simp [List.drop_drop]
    rw [step, d1]; exact List.drop_left' lb
  have d3 : big.drop 12 = d ++ (e ++ (f ++ (g ++ i))) := by
    have step : big.drop 12 = (big.drop 8).drop 4 := by simp [List.drop_drop]
    rw [step, d2]; exact List.drop_left' lc
  have d4 : big.drop 16 = e ++ (f ++ (g ++ i)) := by
    have step : big.drop 16 = (big.drop 12).drop 4 := by simp [List.drop_drop]
    rw [step, d3]; exact List.drop_left' ld
  have d5 : big.drop 20 = f ++ (g ++ i) := by
    have step : big.drop 20 = (big.drop 16).drop 4 := by simp [List.drop_drop]
    rw [step, d4]; exact List.drop_left' le
  have d6 : big.drop 24 = g ++ i := by
    have step : big.drop 24 = (big.drop 20).drop 4 := by simp [List.drop_drop]
    rw [step, d5]; exact List.drop_left' lf
  have d7 : big.drop 32 = i := by
    have step : big.drop 32 = (big.drop 24).drop 8 := by simp [List.drop_drop]
    rw [step, d6]; exact List.drop_left' lg
  have t0 : big.take 4 = a := by rw [hbig]; exact List.take_left' la
  simp only [unpackHeader, t0, d1, d2, d3, d4, d5, d6, d7]
  rw [List.take_left' lb, List.take_left' lc, List.take_left' ld, List.take_left' le,
    List.take_left' lf, List.take_left' lg, show i.take 4 = i from by
      rw [← li, List.take_length]]

/-- Round trip: decoding the wire encoding of an in-range header recovers it. -/
theorem unpackHeader_packHeader (h : FrameHeader) (hr : HeaderInRange h) :
    unpackHeader (packHeader h) = h := by
  obtain ⟨m, w, ht, sy, su, sv, ts, pl⟩ := h
  obtain ⟨h1, h2, h3, h4, h5, h6, h7, h8⟩ := hr
  have e : packHeader ⟨m, w, ht, sy, su, sv, ts, pl⟩ =
      beEncode 4 m ++ (beEncode 4 w ++ (beEncode 4 ht ++ (beEncode 4 sy ++
        (beEncode 4 su ++ (beEncode 4 sv ++ (beEncode 8 ts ++ beEncode 4 pl)))))) := by
    simp [packHeader, List.append_assoc]
  rw [e, unpackHeader_append _ _ _ _ _ _ _ _
    (beEncode_length 4 m) (beEncode_length 4 w) (beEncode_length 4 ht)
    (beEncode_length 4 sy) (beEncode_length 4 su) (beEncode_length 4 sv)
    (beEncode_length 8 ts) (beEncode_length 4 pl)]
  simp only at h1 h2 h3 h4 h5 h6 h7 h8
  rw [beDecode_beEncode 4 m (by rw [pow256_four]; exact h1),
    beDecode_beEncode 4 w (by rw [pow256_four]; exact h2),
    beDecode_beEncode 4 ht (by rw [pow256_four]; exact h3),
    beDecode_beEncode 4 sy (by rw [pow256_four]; exact h4),
    beDecode_beEncode 4 su (by rw [pow256_four]; exact h5),
    beDecode_beEncode 4 sv (by rw [pow256_four]; exact h6),
    beDecode_beEncode 8 ts (by rw [pow256_eight]; exact h7),
    beDecode_beEncode 4 pl (by rw [pow256_four]; exact h8)]

/-! ### Unfolding lemmas for the loop -/

theorem fillPayload_done (fuel : Nat) (buf : List Nat) (cks : List (List Nat)) (plen : Nat)
    (h : ¬ buf.length < plen) : fillPayload (fuel + 1) buf cks plen = some (buf, cks) := by
  simp [fillPayload, h]

theorem fillPayload_recv (fuel : Nat) (buf c : List Nat) (rest : List (List Nat)) (plen : Nat)
    (h1 : buf.length < plen) (h2 : buf ++ c ≠ []) :
    fillPayload (fuel + 1) buf (c :: rest) plen = fillPayload fuel (buf ++ c) rest plen := by
  simp [fillPayload, h1, h2]

theorem fillPayload_eof_empty (fuel plen : Nat) (h : 0 < plen) :
    fillPayload (fuel + 1) [] [] plen = some ([], []) := by
  simp [fillPayload, h]

theorem fillPayload_eof_stuck (fuel : Nat) (buf : List Nat) (plen : Nat)
    (h1 : buf.length < plen) (h2 : buf ≠ []) :
    fillPayload (fuel + 1) buf [] plen = fillPayload fuel buf [] plen := by
  simp [fillPayload, h1, h2]

/-- With the socket at end-of-stream and a non-empty buffer still short of the
payload, the inner wait loop never exits: `recv` keeps answering empty. -/
theorem fillPayload_stuck_none (fuel : Nat) (buf : List Nat) (plen : Nat)
    (h1 : buf.length < plen) (h2 : buf ≠ []) :
    fillPayload fuel buf [] plen = none := by
  induction fuel with
  | zero => rfl
  | succ n ih => rw [fillPayload_eof_stuck n buf plen h1 h2]; exact ih

theorem runAux_eof_done (fuel : Nat) (s : DecState) (h1 : s.buf.length < s.need)
    (h2 : s.chunks = []) (h3 : s.buf = []) :
    runAux (fuel + 1) s =
      some ⟨s.frames, s.frame_count, 0, s.log ++ [Msg.doneCount s.frame_count]⟩ := by
  obtain ⟨buf, need, cks, fr, cnt, lg⟩ := s
  dsimp only at h1 h2 h3
  subst h2; subst h3
  rw [runAux, if_pos h1, if_pos rfl]

theorem runAux_eof_stuck (fuel : Nat) (s : DecState) (h1 : s.buf.length < s.need)
    (h2 : s.chunks = []) (h3 : s.buf ≠ []) :
    runAux (fuel + 1) s = runAux fuel s := by
  obtain ⟨buf, need, cks, fr, cnt, lg⟩ := s
  simp only at h1 h2 h3
  subst h2
  simp [runAux, h1, h3]

theorem runAux_recv_done (fuel : Nat) (s : DecState) (c : List Nat) (rest : List (List Nat))
    (h1 : s.buf.length < s.need) (h2 : s.chunks = c :: rest) (h3 : s.buf ++ c = []) :
    runAux (fuel + 1) s =
      some ⟨s.frames, s.frame_count, 0, s.log ++ [Msg.doneCount s.frame_count]⟩ := by
  obtain ⟨buf, need, cks, fr, cnt, lg⟩ := s
  simp only at h1 h2 h3
  subst h2
  simp [runAux, h1, h3]

theorem runAux_recv (fuel : Nat) (s : DecState) (c : List Nat) (rest : List (List Nat))
    (h1 : s.buf.length < s.need) (h2 : s.chunks = c :: rest) (h3 : s.buf ++ c ≠ []) :
    runAux (fuel + 1) s = runAux fuel { s with buf := s.buf ++ c, chunks := rest } := by
  obtain ⟨buf, need, cks, fr, cnt, lg⟩ := s
  simp only at h1 h2 h3
  subst h2
  simp [runAux, h1, h3]

theorem runAux_badmagic (fuel : Nat) (s : DecState) (hd : FrameHeader)
    (h1 : ¬ s.buf.length < s.need) (hhd : unpackHeader (s.buf.take s.need) = hd)
    (h2 : hd.magic ≠ MAGIC) :
    runAux (fuel + 1) s =
      some ⟨s.frames, s.frame_count, 3, s.log ++ [Msg.badMagic hd.magic]⟩ := by
  obtain ⟨buf, need, cks, fr, cnt, lg⟩ := s
  simp only at h1 hhd
  simp [runAux, h1, hhd, h2]

theorem runAux_goodmagic (fuel : Nat) (s : DecState) (hd : FrameHeader)
    (h1 : ¬ s.buf.length < s.need) (hhd : unpackHeader (s.buf.take s.need) = hd)
    (h2 : hd.magic = MAGIC) :
    runAux (fuel + 1) s =
      match fillPayload fuel (s.buf.drop s.need) s.chunks hd.payload_len with
      | none => none
      | some (buf2, chunks2) =>
        if buf2.length < hd.payload_len then
          some ⟨s.frames, s.frame_count, 0, diagLog s hd ++ [Msg.doneCount s.frame_count]⟩
        else
          runAux fuel ⟨buf2.drop hd.payload_len, headerNeed, chunks2,
            s.frames ++ [(hd, buf2.take hd.payload_len)], s.frame_count + 1,
            tickLog (diagLog s hd) (s.frame_count + 1)⟩ := by
  obtain ⟨buf, need, cks, fr, cnt, lg⟩ := s
  simp only at h1 hhd
  simp only [runAux, if_neg h1, hhd, h2, ne_eq, not_true_eq_false, if_false, diagLog, tickLog]

/-! ### Fuel monotonicity -/

theorem fillPayload_mono_succ :
    ∀ fuel buf cks plen r, fillPayload fuel buf cks plen = some r →
      fillPayload (fuel + 1) buf cks plen = some r := by
  intro fuel
  induction fuel with
  | zero => intro buf cks plen r h; simp [fillPayload] at h
  | succ n ih =>
    intro buf cks plen r h
    by_cases h1 : buf.length < plen
    · cases cks with
      | nil =>
        by_cases h2 : buf = []
        · subst h2; simp [fillPayload, h1] at h ⊢; exact h
        · rw [fillPayload_eof_stuck n buf plen h1 h2] at h
          rw [fillPayload_eof_stuck (n + 1) buf plen h1 h2]
          exact ih buf [] plen r h
      | cons c rest =>
        by_cases h2 : buf ++ c = []
        · simp [fillPayload, h1, h2] at h ⊢; exact h
        · rw [fillPayload_recv n buf c rest plen h1 h2] at h
          rw [fillPayload_recv (n + 1) buf c rest plen h1 h2]
          exact ih (buf ++ c) rest plen r h
    · rw [fillPayload_done n buf cks plen h1] at h
      rw [fillPayload_done (n + 1) buf cks plen h1]
      exact h

theorem fillPayload_mono {fuel fuel' : Nat} {buf cks plen r}
    (hle : fuel ≤ fuel') (h : fillPayload fuel buf cks plen = some r) :
    fillPayload fuel' buf cks plen = some r := by
  induction hle with
  | refl => exact h
  | step _ ih => exact fillPayload_mono_succ _ _ _ _ _ ih

theorem runAux_mono_succ :
    ∀ fuel s r, runAux fuel s = some r → runAux (fuel + 1) s = some r := by
  intro fuel
  induction fuel with
  | zero => intro s r h; simp [runAux] at h
  | succ n ih =>
    intro s r h
    by_cases h1 : s.buf.length < s.need
    · cases hc : s.chunks with
      | nil =>
        by_cases h2 : s.buf = []
        · rw [runAux_eof_done n s h1 hc h2] at h
          rw [runAux_eof_done (n + 1) s h1 hc h2]
          exact h
        · rw [runAux_eof_stuck n s h1 hc h2] at h
          rw [runAux_eof_stuck (n + 1) s h1 hc h2]
          exact ih s r h
      | cons c rest =>
        by_cases h2 : s.buf ++ c = []
        · rw [runAux_recv_done n s c rest h1 hc h2] at h
          rw [runAux_recv_done (n + 1) s c rest h1 hc h2]
          exact h
        · rw [runAux_recv n s c rest h1 hc h2] at h
          rw [runAux_recv (n + 1) s c rest h1 hc h2]
          exact ih _ r h
    · by_cases h2 : (unpackHeader (s.buf.take s.need)).magic = MAGIC
      · rw [runAux_goodmagic n s _ h1 rfl h2] at h
        rw [runAux_goodmagic (n + 1) s _ h1 rfl h2]
        cases hfp : fillPayload n (s.buf.drop s.need) s.chunks
            (unpackHeader (s.buf.take s.need)).payload_len with
        | none => rw [hfp] at h; simp at h
        | some pr =>
          obtain ⟨buf2, cks2⟩ := pr
          rw [hfp] at h
          rw [fillPayload_mono_succ n _ _ _ _ hfp]
          simp only at h ⊢
          by_cases h3 : buf2.length < (unpackHeader (s.buf.take s.need)).payload_len
          · rw [if_pos h3] at h ⊢; exact h
          · rw [if_neg h3] at h ⊢; exact ih _ r h
      · rw [runAux_badmagic n s _ h1 rfl h2] at h
        rw [runAux_badmagic (n + 1) s _ h1 rfl h2]
        exact h

theorem runAux_mono {fuel fuel' : Nat} {s r} (hle : fuel ≤ fuel')
    (h : runAux fuel s = some r) : runAux fuel' s = some r := by
  induction hle with
  | refl => exact h
  | step _ ih => exact runAux_mono_succ _ _ _ ih

/-! ### Decoding a well-formed stream under arbitrary chunking -/

theorem chunks_nil_of_flatten_nil {cs : List (List Nat)} (hne : ∀ c ∈ cs, c ≠ [])
    (h : cs.flatten = []) : cs = [] := by
  cases cs with
  | nil => rfl
  | cons c rest =>
    rw [List.flatten_cons, List.append_eq_nil] at h
    exact absurd h.1 (hne c (by simp))

/-- Header wait: from any state short of the 36-byte requirement, the loop
appends chunks until the buffer has at least 36 bytes, preserving the byte
stream and the observables. -/
theorem drain_header :
    ∀ (cs : List (List Nat)), (∀ c ∈ cs, c ≠ []) →
    ∀ (buf : List Nat), 36 ≤ (buf ++ cs.flatten).length →
    ∃ buf' cs', 36 ≤ buf'.length ∧ buf' ++ cs'.flatten = buf ++ cs.flatten ∧
      (∀ c ∈ cs', c ≠ []) ∧
      ∀ fr cnt lg r, Emits ⟨buf', headerNeed, cs', fr, cnt, lg⟩ r →
        Emits ⟨buf, headerNeed, cs, fr, cnt, lg⟩ r := by
  intro cs
  induction cs with
  | nil =>
    intro _ buf hlen
    exact ⟨buf, [], by simpa using hlen, rfl, by simp, fun _ _ _ _ hr => hr⟩
  | cons c rest ih =>
    intro hne buf hlen
    by_cases hb : 36 ≤ buf.length
    · exact ⟨buf, c :: rest, hb, rfl, hne, fun _ _ _ _ hr => hr⟩
    · push_neg at hb
      have hc : c ≠ [] := hne c (by simp)
      have hlen' : 36 ≤ ((buf ++ c) ++ rest.flatten).length := by
        simpa [List.append_assoc] using hlen
      obtain ⟨buf', cs', h1, h2, h3, h4⟩ :=
        ih (fun x hx => hne x (by simp [hx])) (buf ++ c) hlen'
      refine ⟨buf', cs', h1, ?_, h3, ?_⟩
      · rw [h2]; simp [List.append_assoc]
      · intro fr cnt lg r hr
        obtain ⟨fuel, hfuel⟩ := h4 fr cnt lg r hr
        refine ⟨fuel + 1, ?_⟩
        rw [runAux_recv fuel ⟨buf, headerNeed, c :: rest, fr, cnt, lg⟩ c rest
          (by dsimp; rw [headerNeed_eq]; omega) rfl
          (by dsimp; intro hemp; exact hc (List.append_eq_nil.mp hemp).2)]
        exact hfuel

/-- Payload wait: when the remaining stream holds at least `plen` bytes, the
inner loop terminates with a buffer of at least `plen` bytes, preserving the
byte stream. -/
theorem fillPayload_complete :
    ∀ (cs : List (List Nat)), (∀ c ∈ cs, c ≠ []) →
    ∀ (buf : List Nat) (plen : Nat), plen ≤ (buf ++ cs.flatten).length →
    ∃ fuel buf' cs', fillPayload fuel buf cs plen = some (buf', cs') ∧
      plen ≤ buf'.length ∧ buf' ++ cs'.flatten = buf ++ cs.flatten ∧
      ∀ c ∈ cs', c ≠ [] := by
  intro cs
  induction cs with
  | nil =>
    intro _ buf plen hlen
    have hlen2 : ¬ buf.length < plen := by simp at hlen; omega
    exact ⟨1, buf, [], fillPayload_done 0 buf [] plen hlen2, by omega, rfl, by simp⟩
  | cons c rest ih =>
    intro hne buf plen hlen
    by_cases hb : buf.length < plen
    · have hc : c ≠ [] := hne c (by simp)
      have hlen' : plen ≤ ((buf ++ c) ++ rest.flatten).length := by
        simpa [List.append_assoc] using hlen
      obtain ⟨fuel, buf', cs', h1, h2, h3, h4⟩ :=
        ih (fun x hx => hne x (by simp [hx])) (buf ++ c) plen hlen'
      refine ⟨fuel + 1, buf', cs', ?_, h2, ?_, h4⟩
      · rw [fillPayload_recv fuel buf c rest plen hb
          (fun hemp => hc (List.append_eq_nil.mp hemp).2)]
        exact h1
      · rw [h3]; simp [List.append_assoc]
    · exact ⟨1, buf, c :: rest, fillPayload_done 0 buf _ plen hb, by omega, rfl, hne⟩

/-- Main lemma: a buffered suffix of a well-formed frame stream, delivered
through any sequence of non-empty chunks, decodes to exactly those frames and
ends cleanly. -/
theorem decode_valid :
    ∀ (fs : List (FrameHeader × List Nat)), (∀ f ∈ fs, ValidFrame f) →
    ∀ (buf : List Nat) (cs : List (List Nat)), (∀ c ∈ cs, c ≠ []) →
    buf ++ cs.flatten = encodeFrames fs →
    ∀ fr cnt lg, ∃ lg', Emits ⟨buf, headerNeed, cs, fr, cnt, lg⟩
      ⟨fr ++ fs, cnt + fs.length, 0, lg'⟩ := by
  intro fs
  induction fs with
  | nil =>
    intro _ buf cs hne htot fr cnt lg
    rw [show encodeFrames [] = [] from rfl, List.append_eq_nil] at htot
    have hcs : cs = [] := chunks_nil_of_flatten_nil hne htot.2
    subst hcs
    refine ⟨lg ++ [Msg.doneCount cnt], 1, ?_⟩
    rw [runAux_eof_done 0 _ (by rw [htot.1, headerNeed_eq]; simp) rfl htot.1]
    simp
  | cons f rest ih =>
    obtain ⟨h, p⟩ := f
    intro hv buf cs hne htot fr cnt lg
    obtain ⟨hm, hpl, hr⟩ := hv (h, p) (by simp)
    have henc : encodeFrames ((h, p) :: rest) = packHeader h ++ (p ++ encodeFrames rest) := by
      simp [encodeFrames, encodeFrame]
    rw [henc] at htot
    have hlen36 : 36 ≤ (buf ++ cs.flatten).length := by
      rw [htot]
      simp [packHeader_length]
    obtain ⟨buf1, cs1, hb1, htot1, hne1, htrans⟩ := drain_header cs hne buf hlen36
    rw [htot] at htot1
    have hpack : buf1.take 36 = packHeader h := by
      have step := take_of_append_eq htot1 (by rw [packHeader_length]; exact hb1)
      rwa [packHeader_length] at step
    have hdrop : buf1.drop 36 ++ cs1.flatten = p ++ encodeFrames rest := by
      have step := drop_of_append_eq htot1 (by rw [packHeader_length]; exact hb1)
      rwa [packHeader_length] at step
    have hhd : unpackHeader (buf1.take headerNeed) = h := by
      rw [headerNeed_eq, hpack]
      exact unpackHeader_packHeader h hr
    have hplen : h.payload_len ≤ (buf1.drop 36 ++ cs1.flatten).length := by
      rw [hdrop]
      simp only at hpl
      simp [hpl]
    obtain ⟨f0, buf2, cs2, hfill, hb2, htot2, hne2⟩ :=
      fillPayload_complete cs1 hne1 (buf1.drop 36) h.payload_len hplen
    rw [hdrop] at htot2
    have hplb : p.length ≤ buf2.length := by simp only at hpl; omega
    have hp2 : buf2.take h.payload_len = p := by
      have step := take_of_append_eq htot2 hplb
      simp only at hpl
      rw [hpl]
      exact step
    have hdrop2 : buf2.drop h.payload_len ++ cs2.flatten = encodeFrames rest := by
      have step := drop_of_append_eq htot2 hplb
      simp only at hpl
      rw [hpl]
      exact step
    obtain ⟨lg', F1, hF1⟩ :=
      ih (fun x hx => hv x (by simp [hx])) (buf2.drop h.payload_len) cs2 hne2 hdrop2
        (fr ++ [(h, p)]) (cnt + 1)
        (tickLog (diagLog ⟨buf1, headerNeed, cs1, fr, cnt, lg⟩ h) (cnt + 1))
    refine ⟨lg', ?_⟩
    have hres : ((fr ++ [(h, p)]) ++ rest = fr ++ (h, p) :: rest) ∧
        (cnt + 1 + rest.length = cnt + ((h, p) :: rest).length) := by
      constructor
      · simp
      · simp; omega
    apply htrans
    refine ⟨max f0 F1 + 1, ?_⟩
    rw [runAux_goodmagic (max f0 F1) ⟨buf1, headerNeed, cs1, fr, cnt, lg⟩ h
      (by dsimp; rw [headerNeed_eq]; omega) hhd hm]
    have hfill2 : fillPayload (max f0 F1)
        ((⟨buf1, headerNeed, cs1, fr, cnt, lg⟩ : DecState).buf.drop
          (⟨buf1, headerNeed, cs1, fr, cnt, lg⟩ : DecState).need)
        (⟨buf1, headerNeed, cs1, fr, cnt, lg⟩ : DecState).chunks h.payload_len =
        some (buf2, cs2) := by
      dsimp
      rw [headerNeed_eq]
      exact fillPayload_mono (le_max_left f0 F1) hfill
    rw [hfill2]
    simp only
    rw [if_neg (by omega : ¬ buf2.length < h.payload_len)]
    rw [hp2]
    have hgoal := runAux_mono (le_max_right f0 F1) hF1
    rw [hres.1, hres.2] at hgoal
    exact hgoal

/-! ### Non-termination at end-of-stream with a short non-empty buffer -/

/-- Once the socket is at end-of-stream and the buffer is non-empty but short
of `need`, the loop re-calls `recv` forever: no fuel reaches a result. -/
theorem runAux_stuck_none (fuel : Nat) (s : DecState) (h1 : s.buf.length < s.need)
    (h2 : s.chunks = []) (h3 : s.buf ≠ []) : runAux fuel s = none := by
  induction fuel with
  | zero => rfl
  | succ n ih => rw [runAux_eof_stuck n s h1 h2 h3]; exact ih

/-- A stream that delivers fewer than 36 bytes in total, at least one of them,
leaves the loop re-calling `recv` forever. -/
theorem short_stream_loops :
    ∀ (cs : List (List Nat)), (∀ c ∈ cs, c ≠ []) →
    ∀ (buf : List Nat) (fr : List (FrameHeader × List Nat)) (cnt : Nat) (lg : List Msg),
    buf ++ cs.flatten ≠ [] → (buf ++ cs.flatten).length < 36 →
    ∀ fuel, runAux fuel ⟨buf, headerNeed, cs, fr, cnt, lg⟩ = none := by
  intro cs
  induction cs with
  | nil =>
    intro _ buf fr cnt lg hne0 hlen fuel
    simp only [List.flatten_nil, List.append_nil] at hne0 hlen
    exact runAux_stuck_none fuel _ (by dsimp; rw [headerNeed_eq]; omega) rfl hne0
  | cons c rest ih =>
    intro hne buf fr cnt lg hne0 hlen fuel
    have hc : c ≠ [] := hne c (by simp)
    cases fuel with
    | zero => rfl
    | succ n =>
      have hblen : buf.length < 36 := by
        simp only [List.length_append] at hlen; omega
      rw [runAux_recv n _ c rest (by dsimp; rw [headerNeed_eq]; omega) rfl
        (by dsimp; intro hemp; exact hc (List.append_eq_nil.mp hemp).2)]
      apply ih (fun x hx => hne x (by simp [hx])) (buf ++ c) fr cnt lg
      · intro hemp
        rw [List.append_assoc] at hemp
        exact hc (List.append_eq_nil.mp ((List.append_eq_nil.mp hemp).2)).1
      · simp only [List.flatten_cons, List.length_append] at hlen ⊢; omega

theorem encodeFrames_cons_length (f : FrameHeader × List Nat)
    (fs : List (FrameHeader × List Nat)) : 36 ≤ (encodeFrames (f :: fs)).length := by
  simp [encodeFrames, encodeFrame, packHeader_length]

/-! ### Reporting invariant -/

/-- Invariant of the loop: every emitted frame carries exactly its declared
payload length, the frame count equals the number of emitted frames, a run
that exits with code 3 has exactly one fatal report and no final count report,
and a run that exits with code 0 has no fatal report and exactly one final
count report carrying the frame count. -/
theorem runAux_report :
    ∀ (fuel : Nat) (s : DecState) (r : RunResult), runAux fuel s = some r →
    (∀ f ∈ s.frames, (f.2).length = f.1.payload_len) →
    s.frame_count = s.frames.length →
    s.log.filter Msg.isFatal = [] → s.log.filter Msg.isDone = [] →
    ((∀ f ∈ r.frames, (f.2).length = f.1.payload_len) ∧ r.frame_count = r.frames.length) ∧
    (r.exitCode = 3 → ∃ m, r.log.filter Msg.isFatal = [Msg.badMagic m] ∧
      r.log.filter Msg.isDone = []) ∧
    (r.exitCode = 0 → r.log.filter Msg.isFatal = [] ∧
      r.log.filter Msg.isDone = [Msg.doneCount r.frame_count]) := by
  intro fuel
  induction fuel with
  | zero => intro s r h; simp [runAux] at h
  | succ n ih =>
    intro s r h hfr hcnt hlf hld
    by_cases h1 : s.buf.length < s.need
    · cases hc : s.chunks with
      | nil =>
        by_cases h2 : s.buf = []
        · rw [runAux_eof_done n s h1 hc h2] at h
          obtain rfl := Option.some.inj h
          refine ⟨⟨hfr, hcnt⟩, ?_, ?_⟩
          · intro h3; simp at h3
          · intro _
            exact ⟨by simp [List.filter_append, hlf, Msg.isFatal],
              by simp [List.filter_append, hld, Msg.isDone]⟩
        · rw [runAux_eof_stuck n s h1 hc h2] at h
          exact ih s r h hfr hcnt hlf hld
      | cons c rest =>
        by_cases h2 : s.buf ++ c = []
        · rw [runAux_recv_done n s c rest h1 hc h2] at h
          obtain rfl := Option.some.inj h
          refine ⟨⟨hfr, hcnt⟩, ?_, ?_⟩
          · intro h3; simp at h3
          · intro _
            exact ⟨by simp [List.filter_append, hlf, Msg.isFatal],
              by simp [List.filter_append, hld, Msg.isDone]⟩
        · rw [runAux_recv n s c rest h1 hc h2] at h
          exact ih _ r h hfr hcnt hlf hld
    · by_cases h2 : (unpackHeader (s.buf.take s.need)).magic = MAGIC
      · rw [runAux_goodmagic n s _ h1 rfl h2] at h
        have hdl_f : (diagLog s (unpackHeader (s.buf.take s.need))).filter Msg.isFatal = [] := by
          unfold diagLog
          split <;> simp [List.filter_append, hlf, Msg.isFatal]
        have hdl_d : (diagLog s (unpackHeader (s.buf.take s.need))).filter Msg.isDone = [] := by
          unfold diagLog
          split <;> simp [List.filter_append, hld, Msg.isDone]
        cases hfp : fillPayload n (s.buf.drop s.need) s.chunks
            (unpackHeader (s.buf.take s.need)).payload_len with
        | none => rw [hfp] at h; simp at h
        | some pr =>
          obtain ⟨buf2, cks2⟩ := pr
          rw [hfp] at h
          simp only at h
          by_cases h3 : buf2.length < (unpackHeader (s.buf.take s.need)).payload_len
          · rw [if_pos h3] at h
            obtain rfl := Option.some.inj h
            refine ⟨⟨hfr, hcnt⟩, ?_, ?_⟩
            · intro hx; simp at hx
            · intro _
              exact ⟨by simp [List.filter_append, hdl_f, Msg.isFatal],
                by simp [List.filter_append, hdl_d, Msg.isDone]⟩
          · rw [if_neg h3] at h
            apply ih _ r h
            · intro f hf
              rw [List.mem_append] at hf
              rcases hf with hf | hf
              · exact hfr f hf
              · rw [List.mem_singleton] at hf
                subst hf
                simp only
                rw [List.length_take]
                omega
            · simp [hcnt]
            · unfold tickLog
              split <;> simp [List.filter_append, hdl_f, Msg.isFatal]
            · unfold tickLog
              split <;> simp [List.filter_append, hdl_d, Msg.isDone]
      · rw [runAux_badmagic n s _ h1 rfl h2] at h
        obtain rfl := Option.some.inj h
        refine ⟨⟨hfr, hcnt⟩, ?_, ?_⟩
        · intro _
          exact ⟨(unpackHeader (s.buf.take s.need)).magic,
            by simp [List.filter_append, hlf, Msg.isFatal],
            by simp [List.filter_append, hld, Msg.isDone]⟩
        · intro h3; simp at h3

/-- When the inner payload wait can never exit, the whole loop never exits. -/
theorem runAux_stuck_payload (fuel : Nat) (s : DecState) (hd : FrameHeader)
    (h1 : ¬ s.buf.length < s.need) (hhd : unpackHeader (s.buf.take s.need) = hd)
    (h2 : hd.magic = MAGIC)
    (hstuck : ∀ g, fillPayload g (s.buf.drop s.need) s.chunks hd.payload_len = none) :
    runAux fuel s = none := by
  cases fuel with
  | zero => rfl
  | succ n => rw [runAux_goodmagic n s hd h1 hhd h2, hstuck n]

/-- Parsing a good header at end-of-stream with nothing buffered beyond it and
a positive declared payload: the inner wait breaks on the empty buffer and the
loop ends with the clean final report. -/
theorem runAux_trunc_done (fuel : Nat) (s : DecState) (hd : FrameHeader)
    (h1 : ¬ s.buf.length < s.need) (hhd : unpackHeader (s.buf.take s.need) = hd)
    (h2 : hd.magic = MAGIC) (hb : s.buf.drop s.need = []) (hc : s.chunks = [])
    (hpos : 0 < hd.payload_len) :
    runAux (fuel + 2) s = some ⟨s.frames, s.frame_count, 0,
      diagLog s hd ++ [Msg.doneCount s.frame_count]⟩ := by
  rw [runAux_goodmagic (fuel + 1) s hd h1 hhd h2, hb, hc, fillPayload_eof_empty fuel _ hpos]
  simp only
  rw [if_pos (by simpa using hpos)]

/-! ### Claim theorems -/

/-- C1: chunking invariance.  A well-formed frame sequence encoded to bytes
and delivered through any partition into non-empty chunks decodes to exactly
the same `(header, payload)` sequence, in order, as the single-chunk delivery
of the same bytes; both runs end cleanly having counted every frame, so no
byte is lost or duplicated. -/
theorem chunking_invariance (fs : List (FrameHeader × List Nat))
    (hv : ∀ f ∈ fs, ValidFrame f) (cs : List (List Nat))
    (hne : ∀ c ∈ cs, c ≠ []) (hpart : cs.flatten = encodeFrames fs) :
    ∃ fuel1 fuel2 r1 r2, decodeStream fuel1 cs = some r1 ∧
      decodeStream fuel2 [encodeFrames fs] = some r2 ∧
      r1.frames = fs ∧ r2.frames = r1.frames ∧ r1.exitCode = 0 ∧ r2.exitCode = 0 ∧
      r1.frame_count = fs.length ∧ r2.frame_count = fs.length := by
  by_cases hfs : fs = []
  · subst hfs
    have hcs : cs = [] := chunks_nil_of_flatten_nil hne (hpart.trans rfl)
    subst hcs
    exact ⟨1, 1, ⟨[], 0, 0, [Msg.doneCount 0]⟩, ⟨[], 0, 0, [Msg.doneCount 0]⟩,
      by decide, by decide, rfl, rfl, rfl, rfl, rfl, rfl⟩
  · have hne2 : ∀ c ∈ [encodeFrames fs], c ≠ [] := by
      intro c hc
      rw [List.mem_singleton] at hc
      subst hc
      obtain ⟨f, rest, rfl⟩ : ∃ f rest, fs = f :: rest := by
        cases fs with
        | nil => exact absurd rfl hfs
        | cons f rest => exact ⟨f, rest, rfl⟩
      have hl := encodeFrames_cons_length f rest
      intro hx
      rw [hx] at hl
      simp at hl
    obtain ⟨lg1, F1, h1⟩ := decode_valid fs hv [] cs hne (by simpa using hpart) [] 0 []
    obtain ⟨lg2, F2, h2⟩ := decode_valid fs hv [] [encodeFrames fs] hne2 (by simp) [] 0 []
    exact ⟨F1, F2, _, _, h1, h2, by simp, by simp, rfl, rfl, by simp, by simp⟩

/-- C1 witness at a concrete one-frame stream split inside the header. -/
theorem chunking_invariance_witness :
    ((∀ f ∈ [sampleFrame], ValidFrame f) ∧ (∀ c ∈ sampleChunks, c ≠ []) ∧
      sampleChunks.flatten = encodeFrames [sampleFrame]) ∧
    (∃ fuel1 fuel2 r1 r2, decodeStream fuel1 sampleChunks = some r1 ∧
      decodeStream fuel2 [encodeFrames [sampleFrame]] = some r2 ∧
      r1.frames = [sampleFrame] ∧ r2.frames = r1.frames ∧
      r1.exitCode = 0 ∧ r2.exitCode = 0 ∧
      r1.frame_count = [sampleFrame].length ∧ r2.frame_count = [sampleFrame].length) :=
  ⟨⟨by decide, by decide, by decide⟩,
    chunking_invariance [sampleFrame] (by decide) sampleChunks (by decide) (by decide)⟩

/-- C2 evaluation at the failing inputs.  A stream that ends right after a
complete valid header delivers the one-time diagnostic and then terminates
exactly like a clean end of stream: exit code 0 and a bare final frame-count
report, with no frame emitted and nothing resembling a distinct
truncated-stream error; and if part of the declared payload was delivered,
the loop instead never terminates at any fuel. -/
theorem truncated_payload_not_distinct :
    (decodeStream 10 [packHeader truncHeader] =
      some ⟨[], 0, 0, [Msg.streamDims 4 4 4 2 2, Msg.doneCount 0]⟩) ∧
    ((decodeStream 10 [packHeader truncHeader]).map RunResult.exitCode =
      (decodeStream 10 []).map RunResult.exitCode) ∧
    (∀ fuel, decodeStream fuel [packHeader truncHeader, [9]] = none) := by
  refine ⟨by decide, by decide, ?_⟩
  intro fuel
  cases fuel with
  | zero => rfl
  | succ n =>
    rw [decodeStream, runAux_recv n _ (packHeader truncHeader) [[9]]
      (by decide) rfl (by decide)]
    apply runAux_stuck_payload n _ truncHeader (by decide) (by decide) rfl
    intro g
    show fillPayload g [] [[9]] 2 = none
    cases g with
    | zero => rfl
    | succ k =>
      rw [fillPayload_recv k [] [9] [] 2 (by decide) (by decide)]
      exact fillPayload_stuck_none k [9] 2 (by decide) (by decide)

/-- C2 amended: a stream ending after a complete valid header with none of
the declared (positive-length) payload delivered terminates as a clean end of
stream — exit code 0, the one-time diagnostic, and the bare final frame-count
report, indistinguishable from a clean end — emitting no frame for the partial
payload; and if part of the payload was delivered, the decoder never
terminates.  In neither case is any distinct truncated-stream error produced. -/
theorem truncated_payload_amended (h : FrameHeader) (hm : h.magic = MAGIC)
    (hr : HeaderInRange h) (hpos : 0 < h.payload_len) :
    (decodeStream 3 [packHeader h] =
      some ⟨[], 0, 0, [Msg.streamDims h.width h.height h.stride_y h.stride_u h.stride_v,
        Msg.doneCount 0]⟩) ∧
    (∀ p : List Nat, p ≠ [] → p.length < h.payload_len →
      ∀ fuel, decodeStream fuel [packHeader h ++ p] = none) := by
  have hpack_ne : packHeader h ≠ [] := by
    intro hx
    have hl := packHeader_length h
    rw [hx] at hl
    simp at hl
  constructor
  · rw [decodeStream, runAux_recv 2 _ (packHeader h) []
      (by simp [headerNeed_eq]) rfl (by simpa using hpack_ne)]
    rw [runAux_trunc_done 0 _ h
      (by dsimp only; rw [List.nil_append]; simp [packHeader_length, headerNeed_eq])
      (by dsimp only; rw [List.nil_append, headerNeed_eq, ← packHeader_length h,
        List.take_length]; exact unpackHeader_packHeader h hr)
      hm
      (by dsimp only; rw [List.nil_append, headerNeed_eq, ← packHeader_length h,
        List.drop_length])
      rfl hpos]
    simp [diagLog]
  · intro p hp hlen fuel
    cases fuel with
    | zero => rfl
    | succ n =>
      rw [decodeStream, runAux_recv n _ (packHeader h ++ p) []
        (by simp [headerNeed_eq]) rfl
        (by simp only [List.nil_append, ne_eq, List.append_eq_nil]
            intro hx
            exact hpack_ne hx.1)]
      apply runAux_stuck_payload n _ h
        (by dsimp only
            rw [List.nil_append]
            simp only [List.length_append, packHeader_length, headerNeed_eq]
            omega)
        (by dsimp only
            rw [List.nil_append, headerNeed_eq, List.take_left' (packHeader_length h)]
            exact unpackHeader_packHeader h hr)
        hm
      intro g
      dsimp only
      rw [List.nil_append, headerNeed_eq, List.drop_left' (packHeader_length h)]
      exact fillPayload_stuck_none g p _ hlen hp

/-- C2 amended witness at the concrete truncation header. -/
theorem truncated_payload_amended_witness :
    (truncHeader.magic = MAGIC ∧ HeaderInRange truncHeader ∧ 0 < truncHeader.payload_len) ∧
    ((decodeStream 3 [packHeader truncHeader] =
      some ⟨[], 0, 0, [Msg.streamDims truncHeader.width truncHeader.height
        truncHeader.stride_y truncHeader.stride_u truncHeader.stride_v,
        Msg.doneCount 0]⟩) ∧
    (∀ p : List Nat, p ≠ [] → p.length < truncHeader.payload_len →
      ∀ fuel, decodeStream fuel [packHeader truncHeader ++ p] = none)) :=
  ⟨⟨by decide, by decide, by decide⟩,
    truncated_payload_amended truncHeader (by decide) (by decide) (by decide)⟩

/-- C3: evaluation of the divergence.  Any stream that ends while fewer than
36 bytes (but at least one) have been delivered leaves the decoder re-calling
`recv` forever: no amount of fuel produces a result, so the run never reaches
any terminal state, let alone a failed one. -/
theorem eof_midheader_never_terminates (cs : List (List Nat))
    (hne : ∀ c ∈ cs, c ≠ []) (hnz : cs.flatten ≠ []) (hlt : cs.flatten.length < 36)
    (fuel : Nat) : decodeStream fuel cs = none :=
  short_stream_loops cs hne [] [] 0 [] (by simpa using hnz) (by simpa using hlt) fuel

/-- C3 witness at the one-byte stream. -/
theorem eof_midheader_never_terminates_witness :
    ((∀ c ∈ [[79]], c ≠ ([] : List Nat)) ∧ ([[79]] : List (List Nat)).flatten ≠ [] ∧
      ([[79]] : List (List Nat)).flatten.length < 36) ∧
    decodeStream 37 [[79]] = none :=
  ⟨⟨by decide, by decide, by decide⟩,
    eof_midheader_never_terminates [[79]] (by decide) (by decide) (by decide) 37⟩

/-- C4 counterexample: on a bad-marker stream the fatal condition is reported
exactly once, but the frame-count report is absent from the output, so the
fatal condition is not reported together with the count of frames decoded so
far as the claim states. -/
theorem fatal_without_count :
    (decodeStream 10 [List.replicate 36 0]).map
      (fun r => (r.log.filter Msg.isFatal, r.log.filter Msg.isDone, r.frames)) =
      some ([Msg.badMagic 0], [], []) := by decide

/-- C4 amended: every halting run emits only complete frames (never a partial
one) and counts exactly the emitted frames; a run halting on a bad marker
(exit code 3) reports the fatal condition exactly once and does not report
the frame count; a run halting cleanly (exit code 0) reports no fatal
condition and reports the frame count exactly once. -/
theorem fatal_reporting (fuel : Nat) (cs : List (List Nat)) (r : RunResult)
    (h : decodeStream fuel cs = some r) :
    ((∀ f ∈ r.frames, (f.2).length = f.1.payload_len) ∧ r.frame_count = r.frames.length) ∧
    (r.exitCode = 3 → ∃ m, r.log.filter Msg.isFatal = [Msg.badMagic m] ∧
      r.log.filter Msg.isDone = []) ∧
    (r.exitCode = 0 → r.log.filter Msg.isFatal = [] ∧
      r.log.filter Msg.isDone = [Msg.doneCount r.frame_count]) :=
  runAux_report fuel _ r h (by simp) rfl rfl rfl

/-- C4 amended witness at the concrete bad-marker stream. -/
theorem fatal_reporting_witness :
    decodeStream 10 [List.replicate 36 0] = some ⟨[], 0, 3, [Msg.badMagic 0]⟩ ∧
    (((∀ f ∈ ([] : List (FrameHeader × List Nat)), (f.2).length = f.1.payload_len) ∧
        (0 : Nat) = ([] : List (FrameHeader × List Nat)).length) ∧
      ((3 : Nat) = 3 → ∃ m, ([Msg.badMagic 0]).filter Msg.isFatal = [Msg.badMagic m] ∧
        ([Msg.badMagic 0]).filter Msg.isDone = []) ∧
      ((3 : Nat) = 0 → ([Msg.badMagic 0]).filter Msg.isFatal = [] ∧
        ([Msg.badMagic 0]).filter Msg.isDone = [Msg.doneCount 0])) :=
  ⟨by decide, fatal_reporting 10 [List.replicate 36 0] ⟨[], 0, 3, [Msg.badMagic 0]⟩ (by decide)⟩

/-- C5: a stream whose first four bytes do not spell the protocol marker is
rejected as soon as the 36-byte header is available: the run terminates with
exit code 3, reports the offending magic once, and emits no frames — there is
no forward scan for another marker, whatever bytes follow. -/
theorem bad_marker_rejected (cs : List (List Nat)) (hne : ∀ c ∈ cs, c ≠ [])
    (hlen : 36 ≤ cs.flatten.length)
    (hbad : beDecode (cs.flatten.take 4) ≠ MAGIC) :
    ∃ fuel, decodeStream fuel cs =
      some ⟨[], 0, 3, [Msg.badMagic (beDecode (cs.flatten.take 4))]⟩ := by
  obtain ⟨buf1, cs1, hb1, htot1, hne1, htrans⟩ :=
    drain_header cs hne [] (by simpa using hlen)
  rw [List.nil_append] at htot1
  have hmag : (unpackHeader (buf1.take headerNeed)).magic = beDecode (cs.flatten.take 4) := by
    rw [headerNeed_eq]
    show beDecode ((buf1.take 36).take 4) = _
    rw [List.take_take]
    norm_num
    rw [← htot1, List.take_append_of_le_length (by omega)]
  have hstep : runAux 1 ⟨buf1, headerNeed, cs1, [], 0, []⟩ =
      some ⟨[], 0, 3, [Msg.badMagic (beDecode (cs.flatten.take 4))]⟩ := by
    rw [runAux_badmagic 0 _ (unpackHeader (buf1.take headerNeed))
      (by dsimp; rw [headerNeed_eq]; omega) rfl (by rw [hmag]; exact hbad)]
    rw [hmag]
    simp
  exact htrans [] 0 [] _ ⟨1, hstep⟩

/-- C5 witness at a 36-byte stream of 0x01 bytes. -/
theorem bad_marker_rejected_witness :
    ((∀ c ∈ [List.replicate 36 1], c ≠ ([] : List Nat)) ∧
      36 ≤ ([List.replicate 36 1] : List (List Nat)).flatten.length ∧
      beDecode (([List.replicate 36 1] : List (List Nat)).flatten.take 4) ≠ MAGIC) ∧
    (∃ fuel, decodeStream fuel [List.replicate 36 1] =
      some ⟨[], 0, 3,
        [Msg.badMagic (beDecode (([List.replicate 36 1] : List (List Nat)).flatten.take 4))]⟩) :=
  ⟨⟨by decide, by decide, by decide⟩,
    bad_marker_rejected [List.replicate 36 1] (by decide) (by decide) (by decide)⟩

/-- C6: the fixed prefix read before each payload is the 36-byte value of the
script's `need` sum, and decoding recovers exactly the big-endian fields laid
out at offsets 0, 4, 8, 12, 16, 20, 24 and 32, for every combination of field
values within their declared widths. -/
theorem header_layout (h : FrameHeader) (hr : HeaderInRange h) :
    (packHeader h).length = headerNeed ∧ headerNeed = 36 ∧
      unpackHeader (packHeader h) = h :=
  ⟨by rw [headerNeed_eq]; exact packHeader_length h, rfl, unpackHeader_packHeader h hr⟩

/-- C6 witness at concrete field values. -/
theorem header_layout_witness :
    HeaderInRange ⟨MAGIC, 1920, 1080, 1920, 960, 960, 123456789, 12345⟩ ∧
    ((packHeader ⟨MAGIC, 1920, 1080, 1920, 960, 960, 123456789, 12345⟩).length = headerNeed ∧
      headerNeed = 36 ∧
      unpackHeader (packHeader ⟨MAGIC, 1920, 1080, 1920, 960, 960, 123456789, 12345⟩) =
        ⟨MAGIC, 1920, 1080, 1920, 960, 960, 123456789, 12345⟩) :=
  ⟨by decide, header_layout ⟨MAGIC, 1920, 1080, 1920, 960, 960, 123456789, 12345⟩ (by decide)⟩

/-- C7: the marker is the only validated field.  Any stream of frames whose
markers are correct and whose fields merely fit their wire widths — with no
constraint relating widths, heights, strides or timestamps across frames —
decodes completely: every frame is emitted and the run ends cleanly, so no
field value causes rejection and dimension changes between frames are not an
error. -/
theorem marker_only_validation (fs : List (FrameHeader × List Nat))
    (hmagic : ∀ f ∈ fs, (f : FrameHeader × List Nat).1.magic = MAGIC)
    (hlen : ∀ f ∈ fs, (f : FrameHeader × List Nat).1.payload_len = f.2.length)
    (hrange : ∀ f ∈ fs, HeaderInRange (f : FrameHeader × List Nat).1) :
    ∃ fuel r, decodeStream fuel [encodeFrames fs] = some r ∧ r.frames = fs ∧
      r.exitCode = 0 ∧ r.frame_count = fs.length := by
  have hv : ∀ f ∈ fs, ValidFrame f := fun f hf => ⟨hmagic f hf, hlen f hf, hrange f hf⟩
  cases fs with
  | nil => exact ⟨1, ⟨[], 0, 0, [Msg.doneCount 0]⟩, by decide, rfl, rfl, rfl⟩
  | cons f rest =>
    have hne2 : ∀ c ∈ [encodeFrames (f :: rest)], c ≠ [] := by
      intro c hc
      rw [List.mem_singleton] at hc
      subst hc
      have hl := encodeFrames_cons_length f rest
      intro hx
      rw [hx] at hl
      simp at hl
    obtain ⟨lg', F, hF⟩ := decode_valid (f :: rest) hv [] [encodeFrames (f :: rest)]
      hne2 (by simp) [] 0 []
    exact ⟨F, _, hF, by simp, rfl, by simp⟩

/-- C7 witness: two frames whose dimensions, strides and timestamps all
differ are both emitted. -/
theorem marker_only_validation_witness :
    ((∀ f ∈ [sampleFrameA, sampleFrameB], (f : FrameHeader × List Nat).1.magic = MAGIC) ∧
      (∀ f ∈ [sampleFrameA, sampleFrameB],
        (f : FrameHeader × List Nat).1.payload_len = f.2.length) ∧
      (∀ f ∈ [sampleFrameA, sampleFrameB], HeaderInRange (f : FrameHeader × List Nat).1)) ∧
    (∃ fuel r, decodeStream fuel [encodeFrames [sampleFrameA, sampleFrameB]] = some r ∧
      r.frames = [sampleFrameA, sampleFrameB] ∧ r.exitCode = 0 ∧
      r.frame_count = [sampleFrameA, sampleFrameB].length) :=
  ⟨⟨by decide, by decide, by decide⟩,
    marker_only_validation [sampleFrameA, sampleFrameB] (by decide) (by decide) (by decide)⟩

/-- C8: a header declaring `payloadLength = 0` yields a frame with an empty
payload, and decoding resumes with the next header: every following frame is
emitted as well and the run ends cleanly. -/
theorem zero_payload_frame (h : FrameHeader) (rest : List (FrameHeader × List Nat))
    (hm : h.magic = MAGIC) (hp : h.payload_len = 0) (hr : HeaderInRange h)
    (hrest : ∀ f ∈ rest, ValidFrame f) :
    ∃ fuel r, decodeStream fuel [encodeFrame (h, []) ++ encodeFrames rest] = some r ∧
      r.frames = (h, []) :: rest ∧ r.exitCode = 0 ∧ r.frame_count = rest.length + 1 := by
  have hv : ∀ f ∈ (h, []) :: rest, ValidFrame f := by
    intro f hf
    rcases List.mem_cons.mp hf with rfl | hf
    · exact ⟨hm, by simpa using hp, hr⟩
    · exact hrest f hf
  have henc : encodeFrame (h, []) ++ encodeFrames rest = encodeFrames ((h, []) :: rest) := by
    simp [encodeFrames]
  have hne1 : encodeFrames ((h, []) :: rest) ≠ [] := by
    have hl := encodeFrames_cons_length (h, []) rest
    intro hx
    rw [hx] at hl
    simp at hl
  rw [henc]
  obtain ⟨lg', F, hF⟩ := decode_valid ((h, []) :: rest) hv [] [encodeFrames ((h, []) :: rest)]
    (by intro c hc; rw [List.mem_singleton] at hc; subst hc; exact hne1) (by simp) [] 0 []
  exact ⟨F, _, hF, by simp, rfl, by simp⟩

/-- C8 witness: a zero-payload frame followed by an ordinary frame. -/
theorem zero_payload_frame_witness :
    ((⟨MAGIC, 64, 64, 64, 32, 32, 9, 0⟩ : FrameHeader).magic = MAGIC ∧
      (⟨MAGIC, 64, 64, 64, 32, 32, 9, 0⟩ : FrameHeader).payload_len = 0 ∧
      HeaderInRange ⟨MAGIC, 64, 64, 64, 32, 32, 9, 0⟩ ∧
      (∀ f ∈ [sampleFrameB], ValidFrame f)) ∧
    (∃ fuel r, decodeStream fuel
        [encodeFrame (⟨MAGIC, 64, 64, 64, 32, 32, 9, 0⟩, []) ++ encodeFrames [sampleFrameB]] =
          some r ∧
      r.frames = (⟨MAGIC, 64, 64, 64, 32, 32, 9, 0⟩, []) :: [sampleFrameB] ∧
      r.exitCode = 0 ∧ r.frame_count = [sampleFrameB].length + 1) :=
  ⟨⟨by decide, by decide, by decide, by decide⟩,
    zero_payload_frame ⟨MAGIC, 64, 64, 64, 32, 32, 9, 0⟩ [sampleFrameB]
      (by decide) (by decide) (by decide) (by decide)⟩

/-- C9: the empty stream — end-of-stream on the very first read, with an
empty buffer — terminates cleanly with exit code 0, the bare final count
report, and no frames, at every positive fuel. -/
theorem empty_stream_clean (fuel : Nat) :
    decodeStream (fuel + 1) [] = some ⟨[], 0, 0, [Msg.doneCount 0]⟩ := by
  rw [decodeStream, runAux_eof_done fuel _ (by dsimp; rw [headerNeed_eq]; simp) rfl rfl]
  simp

/-- C10: on a stream carrying one valid header and none of its declared
100-byte payload, the one-time stream-dimensions diagnostic is produced even
though no frame is ever emitted — the diagnostic precedes payload receipt. -/
theorem diag_before_payload :
    decodeStream 10 [packHeader ⟨MAGIC, 640, 480, 640, 320, 320, 0, 100⟩] =
      some ⟨[], 0, 0, [Msg.streamDims 640 480 640 320 320, Msg.doneCount 0]⟩ := by
  decide

end OMTRecv
